import Mathlib

/-!
Verification of the hybrid retrieval-and-rerank search engine
(`src/search/{retrieve,rewrite,rerank,traditional_search,embedder,utils,core}.rs`)
against its natural-language specification.

The Rust code is shallowly embedded:
* `f32` scores are modelled over an arbitrary `LinearOrderedField` (exact
  arithmetic); the NaN-sensitive comparator of the final sorts is modelled
  separately by `F32` / `partialCmpF32` below, since NaN behaviour is the
  one place where real-float semantics matters to a claim.
* strings are Lean `String`s; the character-level operations used by the
  code (`split`, `trim`, `to_lowercase`, `replace`, `split_whitespace`,
  `contains`) are modelled by structurally recursive functions over
  `List Char` so that every definition kernel-evaluates.
* the database and the remote OpenAI capabilities are external
  collaborators: their responses enter the model as explicit parameters
  (oracles), and the engine code that consumes them is translated faithfully.
-/

/-! ## Character-level string primitives (Rust `str` operations) -/

/-- Rust `str::split(sep)` on a character separator: always returns at least
one (possibly empty) field; `"".split(c) == [""]`. -/
def splitOnCharL (sep : Char) : List Char → List (List Char)
  | [] => [[]]
  | c :: t =>
    match splitOnCharL sep t with
    | [] => [[c]]
    | h :: r => if c = sep then [] :: h :: r else (c :: h) :: r

/-- Rust `str::trim`: drop whitespace from both ends. -/
def trimL (l : List Char) : List Char :=
  ((l.dropWhile Char.isWhitespace).reverse.dropWhile Char.isWhitespace).reverse

/-- Rust `str::to_lowercase` (ASCII case mapping; the inputs the claims use
contain only ASCII letters and CJK characters, which are fixed points). -/
def toLowerL (l : List Char) : List Char := l.map Char.toLower

/-- Rust `str::contains(pat)` for a string pattern: substring containment. -/
def containsSeq : List Char → List Char → Bool
  | [], pat => pat.isEmpty
  | c :: t, pat => pat.isPrefixOf (c :: t) || containsSeq t pat

/-- Rust `str::split_whitespace` (auxiliary: current token accumulator). -/
def splitWsAux : List Char → List Char → List (List Char)
  | cur, [] => if cur.isEmpty then [] else [cur.reverse]
  | cur, c :: t =>
    if c.isWhitespace then
      if cur.isEmpty then splitWsAux [] t else cur.reverse :: splitWsAux [] t
    else splitWsAux (c :: cur) t

/-- Rust `str::split_whitespace`: maximal non-whitespace runs, no empties. -/
def splitWhitespaceL (l : List Char) : List (List Char) := splitWsAux [] l

/-- `sep.join(parts)` / `Vec::join`. -/
def joinSepL (sep : List Char) : List (List Char) → List Char
  | [] => []
  | [x] => x
  | x :: y :: t => x ++ sep ++ joinSepL sep (y :: t)

/-- Rust `String::replace(pat, repl)` for a non-empty string pattern:
replace all non-overlapping occurrences, scanning left to right. The first
argument is recursion fuel (an upper bound on the scan length). -/
def replaceSubFuel (repl pat : List Char) : Nat → List Char → List Char
  | 0, hay => hay
  | _ + 1, [] => []
  | fuel + 1, c :: t =>
    if ¬ pat.isEmpty ∧ pat.isPrefixOf (c :: t) then
      repl ++ replaceSubFuel repl pat fuel ((c :: t).drop pat.length)
    else c :: replaceSubFuel repl pat fuel t

/-- Rust `String::replace` entry point (fuel = haystack length). -/
def replaceSubL (hay pat repl : List Char) : List Char :=
  replaceSubFuel repl pat hay.length hay

/-! ## Lexical retriever: `transfer_query_to_tsquery` (`retrieve.rs`) -/

/-- One term of the tsquery: trim, lowercase, internal spaces become the AND
marker `" & "` (`term.replace(" ", " & ")`), and the prefix marker `":*"`
is appended (`retrieve.rs:51-60`). -/
def processTsTerm (kw : List Char) : List Char :=
  let term := toLowerL (trimL kw)
  let processed := replaceSubL term [' '] [' ', '&', ' ']
  processed ++ [':', '*']

/-- The body of the keyword loop of `transfer_query_to_tsquery`: the comma
fields are capped at 6 (`iter().take(6)`), each is processed, and the
results are joined with the OR marker `" | "` (`retrieve.rs:48-65`). -/
def tsqueryOfTerms (keywords : List (List Char)) : List Char :=
  joinSepL [' ', '|', ' '] ((keywords.take 6).map processTsTerm)

/-- `transfer_query_to_tsquery` (`retrieve.rs:44-66`): split the keyword
string on `','` and build the tsquery expression. -/
def transfer_query_to_tsquery (keywords_str : String) : String :=
  String.mk (tsqueryOfTerms (splitOnCharL ',' keywords_str.data))

/-! ## Query normalizer: `is_natural_language_query` / `process_query`
(`rewrite.rs`) -/

/-- The fixed CJK interrogative/request markers of `rewrite.rs:34-45`. -/
def chineseQuestionMarkers : List (List Char) :=
  ["吗", "？", "如何", "怎么", "什么", "哪个", "为什么", "谁", "何时", "在哪"].map String.data

/-- The fixed English interrogative/request words of `rewrite.rs:57-63`. -/
def commonQuestionWords : List (List Char) :=
  ["how", "what", "which", "where", "who", "why", "can", "could", "help", "find",
   "need", "want", "looking"].map String.data

/-- A CJK character in the sense of the code: `'\u{4e00}' <= c && c <= '\u{9fff}'`. -/
def isCjkChar (c : Char) : Bool := decide (0x4e00 ≤ c.val ∧ c.val ≤ 0x9fff)

/-- `is_natural_language_query` (`rewrite.rs:29-71`), translated clause by
clause. -/
def is_natural_language_query (query : String) : Bool :=
  let cs := query.data
  let containsChinese := cs.any isCjkChar
  let containsChineseQuestion := chineseQuestionMarkers.any (containsSeq cs)
  let wordCountThreshold : Nat := if containsChinese then 2 else 3
  let wordCount := (splitWhitespaceL cs).length
  let containsQuestionMark := cs.contains '?' || cs.contains '？'
  let containsPeriod := cs.contains '.' || cs.contains '。'
  let containsCommonQuestionWords :=
    (splitWhitespaceL (toLowerL cs)).any (fun w => commonQuestionWords.contains w)
  decide (wordCount > wordCountThreshold) || containsQuestionMark || containsPeriod ||
    containsCommonQuestionWords ||
    (containsChinese && (containsChineseQuestion || decide (wordCount > 1)))

/-! ## Local fallbacks of the query rewriter (`utils.rs`, `rewrite.rs`) -/

/-- Rust `str::split` on a character predicate (fields may be empty). -/
def splitOnPredL (p : Char → Bool) : List Char → List (List Char)
  | [] => [[]]
  | c :: t =>
    match splitOnPredL p t with
    | [] => [[c]]
    | h :: r => if p c then [] :: h :: r else (c :: h) :: r

/-- UTF-8 byte length of a word (Rust `str::len`). -/
def utf8LenL (l : List Char) : Nat := (l.map Char.utf8Size).sum

/-- The word-splitting class of `basic_keyword_extraction`
(`utils.rs:45`): Rust keeps `char::is_alphanumeric()` characters and `'_'`;
modelled for the scripts this code handles as ASCII alphanumerics, `'_'`
and CJK ideographs. -/
def isWordChar (c : Char) : Bool := c.isAlphanum || c = '_' || isCjkChar c

/-- The built-in default stop-word list of `load_stop_words`
(`utils.rs:79-121`), used when no external stop-word file is available. -/
def defaultStopWords : List String :=
  ["a", "an", "the", "is", "are", "was", "were", "be", "in", "on", "at", "by",
   "for", "with", "about", "against", "how", "what", "where", "when", "why",
   "who", "which", "and", "or", "if", "but", "because", "as", "until", "while",
   "of", "to", "from", "need", "want", "find", "looking", "search", "rust",
   "crate"]

/-- `basic_keyword_extraction` (`utils.rs:37-54`): lowercase, split on
non-word characters, drop empty fields, stop words and words of at most two
bytes, and join the survivors with `", "`. -/
def basic_keyword_extraction (stopWords : List String) (query : String) : String :=
  let q := toLowerL query.data
  let keywords := (splitOnPredL (fun c => ¬ isWordChar c) q).filter
    (fun w => ¬ w.isEmpty ∧ ¬ stopWords.contains (String.mk w) ∧ utf8LenL w > 2)
  String.mk (joinSepL [',', ' '] keywords)

/-- `basic_query_enhancement` (`rewrite.rs:208-230`): trim and lowercase;
CJK queries are returned as is (English stop-word stripping is skipped);
otherwise the seven stop words are removed by the three `replace` chains of
the code. -/
def basic_query_enhancement (query : String) : String :=
  let q := toLowerL (trimL query.data)
  if q.any isCjkChar then String.mk q
  else
    let stopWords : List (List Char) :=
      ["the", "a", "an", "in", "for", "with", "by"].map String.data
    let enhanced := stopWords.foldl
      (fun acc w =>
        let acc1 := replaceSubL acc ([' '] ++ w ++ [' ']) [' ']
        let acc2 := replaceSubL acc1 ([' '] ++ w) []
        replaceSubL acc2 (w ++ [' ']) []) q
    String.mk (trimL enhanced)

/-- Outcome of one call to the remote chat-completion capability, as the
engine can observe it: the API key may be absent or empty, the transport
may fail, the response body may fail to parse, the `choices` list may be
empty, or a content string is delivered. -/
inductive RemoteOutcome where
  | noKey : RemoteOutcome
  | emptyKey : RemoteOutcome
  | transportError : RemoteOutcome
  | malformedResponse : RemoteOutcome
  | emptyChoices : RemoteOutcome
  | ok : String → RemoteOutcome
deriving DecidableEq

/-- `.ok content` is the only outcome on which the remote answer is used. -/
def RemoteOutcome.isFailure : RemoteOutcome → Bool
  | .ok _ => false
  | _ => true

/-- `extract_keywords_from_query` (`rewrite.rs:74-140`): on a delivered
remote content the trimmed content is returned; every failure outcome
(absent/empty key at `rewrite.rs:78-79`, transport error at `:131`,
parse failure at `:125`, empty `choices` at `:126`) falls through to the
local fallback at `:139`. The function never constructs an `Err`. -/
def extract_keywords_from_query (outcome : RemoteOutcome) (stopWords : List String)
    (query : String) : Except String String :=
  match outcome with
  | .ok content => .ok (String.mk (trimL content.data))
  | _ => .ok (basic_keyword_extraction stopWords query)

/-- `rewrite_query` (`rewrite.rs:142-206`): same control flow as
`extract_keywords_from_query`, with `basic_query_enhancement` as the local
fallback (`rewrite.rs:205`). -/
def rewrite_query (outcome : RemoteOutcome) (query : String) : Except String String :=
  match outcome with
  | .ok content => .ok (String.mk (trimL content.data))
  | _ => .ok (basic_query_enhancement query)

/-- `process_query` (`rewrite.rs:6-26`): non-natural-language queries pass
through unchanged; natural-language queries go through keyword extraction,
whose remote outcome is the `outcome` parameter (`stopWords` parameterizes
the file-loaded stop-word list of the local fallback). -/
def process_query (outcome : RemoteOutcome) (stopWords : List String) (query : String) :
    String :=
  if is_natural_language_query query then
    match extract_keywords_from_query outcome stopWords query with
    | .ok keywords => keywords
    | .error _ => query
  else query

/-! ## Data model (`core.rs`) and score combiner (`rerank.rs`) -/

/-- `SearchSortCriteria` (`core.rs:13-17`); the `Relavance` spelling is the
source's. -/
inductive SearchSortCriteria where
  | Comprehensive : SearchSortCriteria
  | Relavance : SearchSortCriteria
  | Downloads : SearchSortCriteria
deriving DecidableEq

/-- `RecommendCrate` (`core.rs:19-27`). The `f32` score fields are modelled
over an arbitrary linear ordered field `K` (exact arithmetic; NaN is
treated separately by the `F32` model below). -/
structure RecommendCrate (K : Type) where
  id : String
  name : String
  description : String
  rank : K
  vector_score : K
  final_score : K
deriving DecidableEq

variable {K : Type} [LinearOrderedField K]

/-- `calculate_final_score` (`rerank.rs:161-182`): the fixed linear blend
of lexical (`keyword_score`) and semantic (`vector_score`) scores selected
by the sort criteria. -/
def calculate_final_score (keyword_score vector_score : K)
    (sort_criteria : SearchSortCriteria) : K :=
  match sort_criteria with
  | .Comprehensive => 0.6 * keyword_score + 0.4 * vector_score
  | .Relavance => 0.8 * keyword_score + 0.2 * vector_score
  | .Downloads => 0.5 * keyword_score + 0.5 * vector_score

/-- The descending comparator `|a, b| b.key.partial_cmp(&a.key).unwrap()`
used by every final sort, as the relation "`a` may precede `b`"; total on
`K` (the NaN case is handled by the `F32` model). -/
def descBy (key : α → K) (a b : α) : Prop := key b ≤ key a

instance (key : α → K) : DecidableRel (descBy key) := fun a b =>
  inferInstanceAs (Decidable (key b ≤ key a))

/-- `sort_by` with a descending key comparator (`enhanced_crates.sort_by`
at `rerank.rs:53` and friends), modelled by stable insertion sort. -/
def sortByKeyDesc (key : α → K) (l : List α) : List α :=
  l.insertionSort (descBy key)

/-- `rank_by_keyword_only` (`rerank.rs:147-158`): sort by the lexical
`rank` descending, zero the vector score, copy `rank` into `final_score`,
and keep the first 100. -/
def rank_by_keyword_only (crates : List (RecommendCrate K)) : List (RecommendCrate K) :=
  let sorted := sortByKeyDesc (fun c => c.rank) crates
  (sorted.map (fun c => { c with vector_score := 0, final_score := c.rank })).take 100

/-- `rerank_crates` (`rerank.rs:10-57`). The two effectful inputs are
parameters: `query_embedding` is the result of `get_query_embedding`
(`none` models its error, taken at `rerank.rs:20-23`), and `id_to_embedding`
is the map produced by `fetch_or_create_embeddings`; `sim` is the vector
similarity (instantiated with `cosine_similarity` in the program). -/
def rerank_crates (sim : List K → List K → K) (query_embedding : Option (List K))
    (id_to_embedding : String → Option (List K)) (crates : List (RecommendCrate K))
    (sort_criteria : SearchSortCriteria) : List (RecommendCrate K) :=
  match query_embedding with
  | none => rank_by_keyword_only crates
  | some q =>
    let enhanced := crates.map (fun c =>
      match id_to_embedding c.id with
      | some e =>
        let similarity := sim q e
        { c with vector_score := similarity,
                 final_score := calculate_final_score c.rank similarity sort_criteria }
      | none =>
        { c with vector_score := 0,
                 final_score := calculate_final_score c.rank 0 sort_criteria })
    (sortByKeyDesc (fun c => c.final_score) enhanced).take 100

/-! ## Traditional retriever (`traditional_search.rs`)

The three per-variant sub-searches and the phrase backfill are store
queries; their result lists enter the model as oracle functions. The
`variants` parameter stands for `preprocess_query`'s output list
(`traditional_search.rs:27`); the claims quantify over it. -/

/-- One step of the duplicate-avoiding merge (`traditional_search.rs:37-45`
and the two analogous loops): push `(result, weight)` unless some already
kept pair has the same `id`. -/
def pushIfNewId (acc : List (RecommendCrate K × K)) (item : RecommendCrate K × K) :
    List (RecommendCrate K × K) :=
  if acc.any (fun p => p.1.id == item.1.id) then acc else acc ++ [item]

/-- A whole `for result in ... { ... }` merge loop over one sub-search's
results. -/
def mergeResults (acc : List (RecommendCrate K × K))
    (items : List (RecommendCrate K × K)) : List (RecommendCrate K × K) :=
  items.foldl pushIfNewId acc

/-- Attach one strategy's weight to its result list. -/
def withWeight (w : K) (results : List (RecommendCrate K)) :
    List (RecommendCrate K × K) :=
  results.map (fun c => (c, w))

/-- The candidate accumulation of `search` before the backfill
(`traditional_search.rs:31-69`): for each query variant, merge the exact
(weight 1.0), prefix (weight 0.8) and loose full-text (weight 0.6)
sub-search results, in that order. -/
def searchMainResults (exactQ prefixQ fulltextQ : String → List (RecommendCrate K))
    (variants : List String) : List (RecommendCrate K × K) :=
  variants.foldl
    (fun acc v =>
      let acc1 := mergeResults acc (withWeight 1.0 (exactQ v))
      let acc2 := mergeResults acc1 (withWeight 0.8 (prefixQ v))
      mergeResults acc2 (withWeight 0.6 (fulltextQ v)))
    []

/-- `search`'s full candidate list (`traditional_search.rs:31-82`): the
per-variant merge, then — only when fewer than 10 candidates were found
and the variant list is non-empty — the phrase-based backfill against the
original query at weight 0.5. -/
def searchAllResults (exactQ prefixQ fulltextQ : String → List (RecommendCrate K))
    (advancedQ : List (RecommendCrate K)) (variants : List String) :
    List (RecommendCrate K × K) :=
  let main := searchMainResults exactQ prefixQ fulltextQ variants
  if main.length < 10 ∧ ¬ variants.isEmpty then
    mergeResults main (withWeight 0.5 advancedQ)
  else main

/-- The flattened stream of weighted candidates in the order the merge
loops of `search` consider them. -/
def searchCandidateStream (exactQ prefixQ fulltextQ : String → List (RecommendCrate K))
    (advancedQ : List (RecommendCrate K)) (variants : List String) :
    List (RecommendCrate K × K) :=
  let mainStream := variants.flatMap (fun v =>
    withWeight 1.0 (exactQ v) ++ withWeight 0.8 (prefixQ v) ++
      withWeight 0.6 (fulltextQ v))
  let main := searchMainResults exactQ prefixQ fulltextQ variants
  if main.length < 10 ∧ ¬ variants.isEmpty then
    mainStream ++ withWeight 0.5 advancedQ
  else mainStream

/-- `rank_results` (`traditional_search.rs:510-542`): scale each kept
candidate's lexical rank by its strategy weight and the sort-criteria
multiplier, then sort by `final_score` descending. -/
def rank_results (results : List (RecommendCrate K × K))
    (sort_criteria : SearchSortCriteria) : List (RecommendCrate K) :=
  let final := results.map (fun p =>
    { p.1 with final_score :=
        match sort_criteria with
        | .Comprehensive => p.1.rank * p.2
        | .Relavance => p.1.rank * p.2 * 1.2
        | .Downloads => p.1.rank * p.2 * 0.8 })
  sortByKeyDesc (fun c => c.final_score) final

/-- `TraditionalSearchModule::search` (`traditional_search.rs:21-93`):
merge, rank, and truncate to 100 when longer. -/
def traditional_search (exactQ prefixQ fulltextQ : String → List (RecommendCrate K))
    (advancedQ : List (RecommendCrate K)) (variants : List String)
    (sort_by : SearchSortCriteria) : List (RecommendCrate K) :=
  let final := rank_results (searchAllResults exactQ prefixQ fulltextQ advancedQ variants)
    sort_by
  if final.length > 100 then final.take 100 else final

/-! ## Similarity scorer (`rerank.rs:279-299`, identical in
`embedder.rs:119-139`) -/

/-- The three running sums of the loop at `rerank.rs:288-292`: with equal
lengths, `dot = Σ v1[i]*v2[i]`, and the norms are the sums of squares. -/
def dotL (v1 v2 : List ℝ) : ℝ := (List.zipWith (· * ·) v1 v2).sum

/-- `cosine_similarity` (`rerank.rs:279-299`): 0 on length mismatch or an
empty first vector, 0 when either accumulated norm is non-positive, and
otherwise `dot / (sqrt norm1 * sqrt norm2)`. -/
noncomputable def cosine_similarity (vec1 vec2 : List ℝ) : ℝ :=
  if vec1.length ≠ vec2.length ∨ vec1.isEmpty then 0
  else
    let dot_product := dotL vec1 vec2
    let norm1 := dotL vec1 vec1
    let norm2 := dotL vec2 vec2
    if norm1 ≤ 0 ∨ norm2 ≤ 0 then 0
    else dot_product / (Real.sqrt norm1 * Real.sqrt norm2)

/-- The rerank pipeline at its real instantiation: scores in `ℝ` and
`cosine_similarity` as the similarity function (`rerank.rs:35`). -/
noncomputable def rerank_crates_real :
    Option (List ℝ) → (String → Option (List ℝ)) → List (RecommendCrate ℝ) →
      SearchSortCriteria → List (RecommendCrate ℝ) :=
  rerank_crates cosine_similarity

/-! ## NaN and the unwrapped partial comparators (`rerank.rs:53,149`,
`traditional_search.rs:539`)

`f32` as the comparator sees it: either NaN or an ordered finite value.
(Infinities order totally, so folding them into the ordered constructor is
harmless for comparator totality.) -/

/-- An `f32` ranking key: NaN, or an ordered (finite) value. -/
inductive F32 where
  | nan : F32
  | num : ℚ → F32
deriving DecidableEq

/-- `f32::partial_cmp`: `None` whenever either operand is NaN. -/
def partialCmpF32 : F32 → F32 → Option Ordering
  | .nan, _ => none
  | _, .nan => none
  | .num a, .num b => some (compare a b)

/-- `RecommendCrate` with its `f32` ranking keys left as genuine `f32`
values (only the fields the final sorts compare). -/
structure RecommendCrateF where
  id : String
  rank : F32
  final_score : F32
deriving DecidableEq

/-- The comparator closure `|a, b| b.final_score.partial_cmp(&a.final_score)
.unwrap()` before the unwrap (`rerank.rs:53`, `traditional_search.rs:539`). -/
def cmpByFinalScoreDesc (a b : RecommendCrateF) : Option Ordering :=
  partialCmpF32 b.final_score a.final_score

/-- The comparator closure of `rank_by_keyword_only` (`rerank.rs:149`),
comparing lexical ranks. -/
def cmpByRankDesc (a b : RecommendCrateF) : Option Ordering :=
  partialCmpF32 b.rank a.rank

/-- Insert into a sorted prefix, `unwrap`ping each comparison: `none` is
the comparator panicking. -/
def insertPartial (cmp : α → α → Option Ordering) (x : α) : List α → Option (List α)
  | [] => some [x]
  | y :: t =>
    match cmp x y with
    | none => none
    | some .gt =>
      match insertPartial cmp x t with
      | none => none
      | some t' => some (y :: t')
    | some _ => some (x :: y :: t)

/-- `slice::sort_by` with a possibly partial comparator: comparison-based
sorting (Rust uses insertion sort on small slices), where any `None`
comparison is the `unwrap` panic. -/
def sortByPartial (cmp : α → α → Option Ordering) : List α → Option (List α)
  | [] => some []
  | x :: t =>
    match sortByPartial cmp t with
    | none => none
    | some t' => insertPartial cmp x t'

/-! ## Embedding cache manager (`rerank.rs:63-144`, `rerank.rs:197-276`;
textually identical in `embedder.rs`)

The store and the remote embedding capability are oracles:
* `stored` is the `embedding` column (`None` = NULL);
* `dbReadOk` is whether the batched `SELECT` succeeds (`rerank.rs:87`);
* `writeOk` is per-id success of the write-back `UPDATE` (`rerank.rs:126`);
* `embedOf` is the vector the remote produces for an input text — a
  successful chunk returns, after the re-sort by `index`
  (`rerank.rs:251-252`), exactly its texts' vectors in input order;
* `chunkFails` is the per-chunk failure pattern (transport error or parse
  failure, `rerank.rs:257-264`): a failed chunk contributes nothing and the
  loop continues with the next chunk.
Vectors are an arbitrary type `V`. -/

/-- `slice::chunks n` (structural fuel = list length). -/
def chunksAux (n : Nat) : Nat → List α → List (List α)
  | 0, _ => []
  | _ + 1, [] => []
  | fuel + 1, x :: t => (x :: t).take n :: chunksAux n fuel ((x :: t).drop n)

/-- `texts.chunks(BATCH_SIZE)` (`rerank.rs:233`). -/
def chunksOf (n : Nat) (l : List α) : List (List α) := chunksAux n l.length l

/-- `BATCH_SIZE` (`rerank.rs:229`). -/
def BATCH_SIZE : Nat := 100

/-- `batch_get_embeddings` (`rerank.rs:197-276`): empty input returns an
empty batch; a missing or empty API key is an error; otherwise the input
is chunked at `BATCH_SIZE`, each failed chunk is skipped, the surviving
chunks' vectors are concatenated, and an entirely empty harvest is an
error. -/
def batch_get_embeddings {V : Type} (hasKey : Bool) (embedOf : String → V)
    (chunkFails : Nat → Bool) (texts : List String) : Except String (List V) :=
  if texts.isEmpty then .ok []
  else if ¬ hasKey then .error "no api key"
  else
    let all := ((chunksOf BATCH_SIZE texts).enum).flatMap
      (fun p => if chunkFails p.1 then [] else p.2.map embedOf)
    if all.isEmpty then .error "no embeddings" else .ok all

/-- The embedding-input text of a candidate (`rerank.rs:100-105`):
`"{name} : {description}"`, or the name alone when the description is
empty. -/
def embedText (c : RecommendCrate K) : String :=
  if c.description = "" then c.name else c.name ++ " : " ++ c.description

/-- `fetch_or_create_embeddings` (`rerank.rs:63-144`): read the stored
vectors of the given candidates, build the needing-list of candidates
without one (in candidate order), submit their texts as one logical batch,
and write each returned vector back under
`crates[crate_id_to_index[i]].id` where `i` enumerates the returned
vectors; a failed write is skipped. The returned map sends an id to its
resolved vector. -/
def fetch_or_create_embeddings {V : Type} (dbReadOk : Bool)
    (stored : String → Option V) (writeOk : String → Bool) (hasKey : Bool)
    (embedOf : String → V) (chunkFails : Nat → Bool)
    (crates : List (RecommendCrate K)) : String → Option V :=
  let storedMap : String → Option V := fun i =>
    if dbReadOk ∧ crates.any (fun c => c.id == i) then stored i else none
  let needing := crates.filter (fun c => (storedMap c.id).isNone)
  match batch_get_embeddings hasKey embedOf chunkFails (needing.map embedText) with
  | .error _ => storedMap
  | .ok embeddings =>
    embeddings.enum.foldl
      (fun m p =>
        match needing.get? p.1 with
        | none => m
        | some c => if writeOk c.id then Function.update m c.id (some p.2) else m)
      storedMap

/-- The output-order invariant, as the spec states it: `final_score` is
non-increasing across the result list. -/
def finalScoresDescending (l : List (RecommendCrate K)) : Prop :=
  l.Pairwise (fun a b => b.final_score ≤ a.final_score)

/-! ## Example instance for the score combiner (the spec's `"http client"`
scenario) -/

/-- The `reqwest` candidate of the spec's example (lexical score 0.9). -/
def reqwestCrate : RecommendCrate ℚ := ⟨"reqwest", "reqwest", "http client library", 0.9, 0, 0⟩

/-- The `serde_json` candidate of the spec's example (lexical score 0.1). -/
def serdeCrate : RecommendCrate ℚ := ⟨"serde_json", "serde_json", "json support", 0.1, 0, 0⟩

/-- A similarity oracle realizing the example's cosine values: 0.8 against
`reqwest`'s stored vector, 0.05 otherwise. -/
def exampleSim : List ℚ → List ℚ → ℚ := fun _ e => if e = [2] then 0.8 else 0.05

/-- A store in which both example candidates have embeddings. -/
def exampleStore : String → Option (List ℚ) := fun i =>
  if i = "reqwest" then some [2] else if i = "serde_json" then some [3] else none

/-- The per-variant weighted candidate stream, strategies in priority order
exact (1.0), prefix (0.8), loose full-text (0.6). -/
def variantStream (exactQ prefixQ fulltextQ : String → List (RecommendCrate K))
    (v : String) : List (RecommendCrate K × K) :=
  withWeight 1.0 (exactQ v) ++ withWeight 0.8 (prefixQ v) ++ withWeight 0.6 (fulltextQ v)

/-- The text-search expression exactly as §6 of the spec words it: split on
commas into at most 6 terms; trim and lowercase each term; replace each
internal space with the AND marker `" & "`; suffix the prefix marker
`":*"`; join with the OR marker `" | "`. -/
def tsquery_per_spec (kw : String) : String :=
  String.mk (joinSepL " | ".data
    (((splitOnCharL ',' kw.data).take 6).map
      (fun t =>
        (toLowerL (trimL t)).flatMap (fun c => if c = ' ' then " & ".data else [c]) ++
          ":*".data)))

/-- The k-th candidate of the failing scenario: id and name `"c<k>"`,
empty description (so its embedding-input text is its name), no stored
vector. -/
def chunkBugCrate (k : Nat) : RecommendCrate ℚ :=
  ⟨"c" ++ toString k, "c" ++ toString k, "", 0, 0, 0⟩

/-- 101 candidates: one more than `BATCH_SIZE`, so the batch is split into
two remote chunks (texts 0–99 and text 100). -/
def chunkBugCrates : List (RecommendCrate ℚ) := (List.range 101).map chunkBugCrate

/-- The failure pattern: the first remote chunk fails, the second
succeeds. -/
def chunkBugFails : Nat → Bool := fun k => k == 0

/-! ## Shared facts about the descending sorts -/

instance descBy.isTotal (key : α → K) : IsTotal α (descBy key) :=
  ⟨fun a b => le_total (key b) (key a)⟩

instance descBy.isTrans (key : α → K) : IsTrans α (descBy key) :=
  ⟨fun _ _ _ h1 h2 => le_trans h2 h1⟩

lemma sortByKeyDesc_pairwise (key : α → K) (l : List α) :
    (sortByKeyDesc key l).Pairwise (fun a b => key b ≤ key a) :=
  List.sorted_insertionSort (descBy key) l

lemma sortByKeyDesc_length (key : α → K) (l : List α) :
    (sortByKeyDesc key l).length = l.length :=
  List.length_insertionSort (descBy key) l

lemma finalScoresDescending_take (l : List (RecommendCrate K)) (n : Nat)
    (h : finalScoresDescending l) : finalScoresDescending (l.take n) :=
  List.Pairwise.sublist (List.take_sublist n l) h

lemma rank_by_keyword_only_sorted (crates : List (RecommendCrate K)) :
    finalScoresDescending (rank_by_keyword_only crates) := by
  apply finalScoresDescending_take
  unfold finalScoresDescending
  rw [List.pairwise_map]
  exact sortByKeyDesc_pairwise (fun c => c.rank) crates

lemma rerank_crates_sorted (sim : List K → List K → K) (qe : Option (List K))
    (m : String → Option (List K)) (crates : List (RecommendCrate K))
    (sc : SearchSortCriteria) :
    finalScoresDescending (rerank_crates sim qe m crates sc) := by
  cases qe with
  | none => exact rank_by_keyword_only_sorted crates
  | some q =>
    exact finalScoresDescending_take _ _ (sortByKeyDesc_pairwise _ _)

lemma rerank_crates_length (sim : List K → List K → K) (qe : Option (List K))
    (m : String → Option (List K)) (crates : List (RecommendCrate K))
    (sc : SearchSortCriteria) :
    (rerank_crates sim qe m crates sc).length ≤ 100 := by
  cases qe with
  | none => exact List.length_take_le 100 _
  | some q => exact List.length_take_le 100 _

lemma rank_results_sorted (results : List (RecommendCrate K × K))
    (sc : SearchSortCriteria) : finalScoresDescending (rank_results results sc) :=
  sortByKeyDesc_pairwise _ _

lemma traditional_search_sorted (exactQ prefixQ fulltextQ : String → List (RecommendCrate K))
    (advancedQ : List (RecommendCrate K)) (variants : List String)
    (sc : SearchSortCriteria) :
    finalScoresDescending (traditional_search exactQ prefixQ fulltextQ advancedQ variants sc) := by
  unfold traditional_search
  dsimp only
  split
  · exact finalScoresDescending_take _ _ (rank_results_sorted _ _)
  · exact rank_results_sorted _ _

lemma traditional_search_length (exactQ prefixQ fulltextQ : String → List (RecommendCrate K))
    (advancedQ : List (RecommendCrate K)) (variants : List String)
    (sc : SearchSortCriteria) :
    (traditional_search exactQ prefixQ fulltextQ advancedQ variants sc).length ≤ 100 := by
  unfold traditional_search
  dsimp only
  split
  · exact List.length_take_le 100 _
  · omega

/-- Claim C1: `calculate_final_score` returns `0.6*l + 0.4*s` under
`Comprehensive`, `0.8*l + 0.2*s` under `Relavance` and `0.5*l + 0.5*s`
under `Downloads`; on the spec's example the Comprehensive scores are 0.86
and 0.08, and `rerank_crates` accordingly ranks `reqwest` first. -/
theorem calculate_final_score_blends :
    (∀ (K : Type) [LinearOrderedField K] (l s : K),
      calculate_final_score l s .Comprehensive = 0.6 * l + 0.4 * s ∧
      calculate_final_score l s .Relavance = 0.8 * l + 0.2 * s ∧
      calculate_final_score l s .Downloads = 0.5 * l + 0.5 * s) ∧
    calculate_final_score (0.9 : ℚ) 0.8 .Comprehensive = 0.86 ∧
    calculate_final_score (0.1 : ℚ) 0.05 .Comprehensive = 0.08 ∧
    (rerank_crates exampleSim (some [1]) exampleStore [serdeCrate, reqwestCrate]
        .Comprehensive).map (fun c => (c.name, c.final_score)) =
      [("reqwest", 0.86), ("serde_json", 0.08)] := by
  refine ⟨fun K _ l s => ⟨rfl, rfl, rfl⟩, by norm_num [calculate_final_score],
    by norm_num [calculate_final_score], ?_⟩
  simp [rerank_crates, sortByKeyDesc, List.insertionSort, List.orderedInsert,
    descBy, serdeCrate, reqwestCrate, exampleSim, exampleStore, calculate_final_score]
  norm_num

/-- Claim C2: for every input candidate list, similarity function, query
embedding outcome, embedding map and sort criterion, the list returned by
`rerank_crates` has non-increasing `final_score` and length at most 100;
the same holds for the traditional retriever's `search` for every family
of sub-search results and variant list. -/
theorem result_lists_sorted_and_capped :
    (∀ (K : Type) [LinearOrderedField K] (sim : List K → List K → K)
      (qe : Option (List K)) (m : String → Option (List K))
      (crates : List (RecommendCrate K)) (sc : SearchSortCriteria),
      finalScoresDescending (rerank_crates sim qe m crates sc) ∧
      (rerank_crates sim qe m crates sc).length ≤ 100) ∧
    (∀ (K : Type) [LinearOrderedField K]
      (exactQ prefixQ fulltextQ : String → List (RecommendCrate K))
      (advancedQ : List (RecommendCrate K)) (variants : List String)
      (sc : SearchSortCriteria),
      finalScoresDescending (traditional_search exactQ prefixQ fulltextQ advancedQ variants sc) ∧
      (traditional_search exactQ prefixQ fulltextQ advancedQ variants sc).length ≤ 100) :=
  ⟨fun K _ sim qe m crates sc =>
    ⟨rerank_crates_sorted sim qe m crates sc, rerank_crates_length sim qe m crates sc⟩,
   fun K _ e p f a v sc =>
    ⟨traditional_search_sorted e p f a v sc, traditional_search_length e p f a v sc⟩⟩

/-! ## The duplicate-avoiding merge: first occurrence wins -/

lemma mergeResults_append (acc a b : List (RecommendCrate K × K)) :
    mergeResults (mergeResults acc a) b = mergeResults acc (a ++ b) :=
  (List.foldl_append _ _ _ _).symm

lemma mergeResults_find? (i : String) (items acc : List (RecommendCrate K × K)) :
    (mergeResults acc items).find? (fun p => p.1.id == i) =
      ((acc.find? (fun p => p.1.id == i)).or (items.find? (fun p => p.1.id == i))) := by
  induction items generalizing acc with
  | nil => simp [mergeResults]
  | cons item rest ih =>
    show (mergeResults (pushIfNewId acc item) rest).find? _ = _
    by_cases hmem : acc.any (fun p => p.1.id == item.1.id) = true
    · have hpush : pushIfNewId acc item = acc := by simp [pushIfNewId, hmem]
      rw [hpush, ih]
      by_cases hit : item.1.id = i
      · have hsome : (acc.find? (fun p => p.1.id == i)).isSome := by
          rw [List.find?_isSome]
          obtain ⟨x, hx, hxid⟩ := List.any_eq_true.mp hmem
          exact ⟨x, hx, by rw [beq_iff_eq] at hxid ⊢; rw [hxid, hit]⟩
        obtain ⟨v, hv⟩ := Option.isSome_iff_exists.mp hsome
        rw [hv]
        rfl
      · rw [List.find?_cons_of_neg _ (by simpa using hit)]
    · have hpush : pushIfNewId acc item = acc ++ [item] := by simp [pushIfNewId, hmem]
      rw [hpush, ih, List.find?_append, Option.or_assoc]
      congr 1
      by_cases hit : item.1.id = i
      · rw [List.find?_cons_of_pos _ (by simpa using hit),
          List.find?_cons_of_pos _ (by simpa using hit)]
        rfl
      · rw [List.find?_cons_of_neg _ (by simpa using hit),
          List.find?_cons_of_neg _ (by simpa using hit)]
        rfl

lemma mergeResults_nodup (items acc : List (RecommendCrate K × K))
    (h : (acc.map (fun p => p.1.id)).Nodup) :
    ((mergeResults acc items).map (fun p => p.1.id)).Nodup := by
  induction items generalizing acc with
  | nil => exact h
  | cons item rest ih =>
    show ((mergeResults (pushIfNewId acc item) rest).map _).Nodup
    apply ih
    by_cases hmem : acc.any (fun p => p.1.id == item.1.id) = true
    · simpa [pushIfNewId, hmem] using h
    · have hnotin : item.1.id ∉ acc.map (fun p => p.1.id) := by
        intro hin
        obtain ⟨p, hp, hpe⟩ := List.mem_map.mp hin
        exact hmem (List.any_eq_true.mpr ⟨p, hp, by simp [hpe]⟩)
      have : pushIfNewId acc item = acc ++ [item] := by simp [pushIfNewId, hmem]
      rw [this, List.map_append, List.nodup_append]
      refine ⟨h, List.nodup_singleton _, ?_⟩
      intro a ha hb
      simp only [List.map_cons, List.map_nil, List.mem_singleton] at hb
      exact hnotin (hb ▸ ha)

lemma searchMainResults_eq_merge (exactQ prefixQ fulltextQ : String → List (RecommendCrate K))
    (variants : List String) :
    searchMainResults exactQ prefixQ fulltextQ variants =
      mergeResults [] (variants.flatMap (variantStream exactQ prefixQ fulltextQ)) := by
  suffices h : ∀ acc, variants.foldl
      (fun acc v =>
        mergeResults (mergeResults (mergeResults acc (withWeight 1.0 (exactQ v)))
          (withWeight 0.8 (prefixQ v))) (withWeight 0.6 (fulltextQ v))) acc =
      mergeResults acc (variants.flatMap (variantStream exactQ prefixQ fulltextQ)) by
    exact h []
  induction variants with
  | nil => intro acc; simp [mergeResults]
  | cons v vs ih =>
    intro acc
    rw [List.flatMap_cons, List.foldl_cons, ih, mergeResults_append, mergeResults_append,
      mergeResults_append, variantStream, List.append_assoc, List.append_assoc]

/-- Claim C7: in the traditional retriever's merged candidate list no id
appears twice; lookup by id agrees with first-occurrence lookup in the
flattened weighted stream, whose per-variant strategy order is
exact (1.0), prefix (0.8), loose full-text (0.6) and then the phrase
backfill (0.5) — so the weight an id retains is that of the first
strategy, in that order, that produced it. -/
theorem search_merge_dedups_first_strategy_wins :
    ∀ (K : Type) [LinearOrderedField K]
      (exactQ prefixQ fulltextQ : String → List (RecommendCrate K))
      (advancedQ : List (RecommendCrate K)) (variants : List String),
      ((searchAllResults exactQ prefixQ fulltextQ advancedQ variants).map
          (fun p => p.1.id)).Nodup ∧
      (∀ i : String,
        (searchAllResults exactQ prefixQ fulltextQ advancedQ variants).find?
            (fun p => p.1.id == i) =
          (searchCandidateStream exactQ prefixQ fulltextQ advancedQ variants).find?
            (fun p => p.1.id == i)) := by
  intro K _ exactQ prefixQ fulltextQ advancedQ variants
  have hmain := searchMainResults_eq_merge exactQ prefixQ fulltextQ variants
  unfold searchAllResults searchCandidateStream
  dsimp only
  rw [hmain]
  split
  · refine ⟨mergeResults_nodup _ _ (mergeResults_nodup _ _ (by simp)), fun i => ?_⟩
    rw [mergeResults_find?, mergeResults_find?, List.find?_append]
    rfl
  · refine ⟨mergeResults_nodup _ _ (by simp), fun i => ?_⟩
    rw [mergeResults_find?]
    rfl

/-- Counterexample to claim C4: `is_natural_language_query` does not
classify the spec's CJK example as natural language — the query is a
single whitespace token (CJK text has no spaces) and contains none of the
fixed interrogative markers, so every disjunct of the heuristic is false. -/
theorem chinese_example_not_classified_natural :
    is_natural_language_query "我需要一个HTTP客户端库" = false := by decide

/-- Claim C4 (as amended): `is_natural_language_query` returns `false` for
`"我需要一个HTTP客户端库"`, so `process_query` passes the query through
unchanged and keyword extraction is not invoked, for every remote outcome
and stop-word list. -/
theorem chinese_example_passes_through_unchanged :
    is_natural_language_query "我需要一个HTTP客户端库" = false ∧
    ∀ (o : RemoteOutcome) (sw : List String),
      process_query o sw "我需要一个HTTP客户端库" = "我需要一个HTTP客户端库" := by
  have h : is_natural_language_query "我需要一个HTTP客户端库" = false := by decide
  exact ⟨h, fun o sw => by simp [process_query, h]⟩

/-- Claim C5: `rewrite_query` and `extract_keywords_from_query` return
`Ok` on every remote outcome, and on every failure outcome (absent or
empty key, transport error, malformed response, empty `choices`) the
result is exactly the deterministic local fallback string. -/
theorem rewrite_and_extract_never_fail :
    (∀ (o : RemoteOutcome) (sw : List String) (q : String),
      ∃ s, extract_keywords_from_query o sw q = .ok s) ∧
    (∀ (o : RemoteOutcome) (q : String), ∃ s, rewrite_query o q = .ok s) ∧
    (∀ (o : RemoteOutcome) (sw : List String) (q : String), o.isFailure = true →
      extract_keywords_from_query o sw q = .ok (basic_keyword_extraction sw q)) ∧
    (∀ (o : RemoteOutcome) (q : String), o.isFailure = true →
      rewrite_query o q = .ok (basic_query_enhancement q)) := by
  refine ⟨fun o sw q => ?_, fun o q => ?_, fun o sw q ho => ?_, fun o q ho => ?_⟩ <;>
    cases o <;>
    simp_all [extract_keywords_from_query, rewrite_query, RemoteOutcome.isFailure]

/-- Witness for claim C5 at concrete failure outcomes. -/
theorem rewrite_and_extract_never_fail_witness :
    extract_keywords_from_query .transportError defaultStopWords "I need a fast HTTP client" =
      .ok (basic_keyword_extraction defaultStopWords "I need a fast HTTP client") ∧
    rewrite_query .malformedResponse "find a json parser" =
      .ok (basic_query_enhancement "find a json parser") :=
  ⟨rewrite_and_extract_never_fail.2.2.1 _ _ _ rfl,
   rewrite_and_extract_never_fail.2.2.2 _ _ rfl⟩

/-- Counterexample to claim C6: on the empty keyword string
`transfer_query_to_tsquery` does not contribute nothing — it emits the
single spurious term `":*"` (the empty term with the prefix marker
appended). -/
theorem empty_keywords_produce_spurious_term :
    transfer_query_to_tsquery "" = ":*" ∧ (transfer_query_to_tsquery "").length = 2 :=
  ⟨by decide, by decide⟩

/-- Claim C6 (as amended): for the empty keyword string the function
produces the single term `":*"` (which is passed on to the store rather
than being dropped); the cap part of the claim holds as stated — only the
first 6 comma-separated terms are used and any further ones are silently
dropped. -/
theorem tsquery_empty_input_and_cap :
    transfer_query_to_tsquery "" = ":*" ∧
    (∀ terms : List (List Char), tsqueryOfTerms terms = tsqueryOfTerms (terms.take 6)) ∧
    transfer_query_to_tsquery "a,b,c,d,e,f,g" = transfer_query_to_tsquery "a,b,c,d,e,f" ∧
    transfer_query_to_tsquery "a,b,c,d,e,f,g" = "a:* | b:* | c:* | d:* | e:* | f:*" := by
  refine ⟨by decide, fun terms => ?_, by decide, by decide⟩
  simp [tsqueryOfTerms, List.take_take]

/-! ## The tsquery construction matches the spec's description -/

lemma replaceSubFuel_single_char (p : Char) (repl : List Char) :
    ∀ (fuel : Nat) (l : List Char), l.length ≤ fuel →
      replaceSubFuel repl [p] fuel l =
        l.flatMap (fun c => if c = p then repl else [c]) := by
  intro fuel
  induction fuel with
  | zero =>
    intro l hl
    rw [Nat.le_zero, List.length_eq_zero] at hl
    subst hl
    rfl
  | succ n ih =>
    intro l hl
    cases l with
    | nil => rfl
    | cons c t =>
      have ht : t.length ≤ n := by
        simp only [List.length_cons] at hl
        omega
      by_cases hc : c = p
      · subst hc
        simp [replaceSubFuel, List.isPrefixOf, ih t ht]
      · simp [replaceSubFuel, List.isPrefixOf, hc, Ne.symm hc, ih t ht]

lemma replaceSubL_single_char (p : Char) (repl l : List Char) :
    replaceSubL l [p] repl = l.flatMap (fun c => if c = p then repl else [c]) :=
  replaceSubFuel_single_char p repl l.length l le_rfl

/-- Claim C9: `transfer_query_to_tsquery` implements exactly the spec's
term construction, and on `"http client, json"` it produces
`"http & client:* | json:*"`. -/
theorem tsquery_construction_matches_spec :
    (∀ kw : String, transfer_query_to_tsquery kw = tsquery_per_spec kw) ∧
    transfer_query_to_tsquery "http client, json" = "http & client:* | json:*" := by
  refine ⟨fun kw => ?_, by decide⟩
  unfold transfer_query_to_tsquery tsquery_per_spec tsqueryOfTerms
  rw [show " | ".data = [' ', '|', ' '] from rfl]
  congr 1
  congr 1
  apply List.map_congr_left
  intro t _
  unfold processTsTerm
  dsimp only
  rw [replaceSubL_single_char]

/-! ## Totality of the unwrapped comparators -/

lemma partialCmpF32_isSome {a b : F32} (ha : a ≠ F32.nan) (hb : b ≠ F32.nan) :
    (partialCmpF32 a b).isSome := by
  cases a with
  | nan => exact absurd rfl ha
  | num x =>
    cases b with
    | nan => exact absurd rfl hb
    | num y => rfl

lemma insertPartial_mem {cmp : α → α → Option Ordering} {x : α} : ∀ {l l' : List α},
    insertPartial cmp x l = some l' → ∀ z ∈ l', z = x ∨ z ∈ l := by
  intro l
  induction l with
  | nil =>
    intro l' h z hz
    simp only [insertPartial, Option.some.injEq] at h
    subst h
    simp only [List.mem_singleton] at hz
    exact Or.inl hz
  | cons y t ih =>
    intro l' h z hz
    cases hcmp : cmp x y with
    | none => simp [insertPartial, hcmp] at h
    | some o =>
      cases o with
      | lt =>
        simp only [insertPartial, hcmp, Option.some.injEq] at h
        subst h
        rcases List.mem_cons.mp hz with rfl | hz2
        · exact Or.inl rfl
        · exact Or.inr hz2
      | eq =>
        simp only [insertPartial, hcmp, Option.some.injEq] at h
        subst h
        rcases List.mem_cons.mp hz with rfl | hz2
        · exact Or.inl rfl
        · exact Or.inr hz2
      | gt =>
        cases hrec : insertPartial cmp x t with
        | none => simp [insertPartial, hcmp, hrec] at h
        | some t' =>
          simp only [insertPartial, hcmp, hrec, Option.some.injEq] at h
          subst h
          rcases List.mem_cons.mp hz with rfl | hz2
          · exact Or.inr (List.mem_cons_self _ _)
          · rcases ih hrec z hz2 with h1 | h1
            · exact Or.inl h1
            · exact Or.inr (List.mem_cons_of_mem _ h1)

lemma insertPartial_isSome {cmp : α → α → Option Ordering} {x : α} {l : List α}
    (h : ∀ y ∈ l, (cmp x y).isSome) : (insertPartial cmp x l).isSome := by
  induction l with
  | nil => rfl
  | cons y t ih =>
    simp only [insertPartial]
    cases hcmp : cmp x y with
    | none =>
      have := h y (List.mem_cons_self _ _)
      rw [hcmp] at this
      exact absurd this (by simp)
    | some o =>
      cases o with
      | gt =>
        have hrec := ih (fun z hz => h z (List.mem_cons_of_mem _ hz))
        cases hrec' : insertPartial cmp x t with
        | none => rw [hrec'] at hrec; exact absurd hrec (by simp)
        | some t' => rfl
      | lt => rfl
      | eq => rfl

lemma sortByPartial_sound {cmp : α → α → Option Ordering} {l : List α}
    (h : ∀ x ∈ l, ∀ y ∈ l, (cmp x y).isSome) :
    (sortByPartial cmp l).isSome ∧
      ∀ l', sortByPartial cmp l = some l' → ∀ z ∈ l', z ∈ l := by
  induction l with
  | nil =>
    refine ⟨rfl, ?_⟩
    intro l' hl'
    simp only [sortByPartial, Option.some.injEq] at hl'
    subst hl'
    simp
  | cons x t ih =>
    obtain ⟨hsome, hmem⟩ := ih (fun a ha b hb =>
      h a (List.mem_cons_of_mem _ ha) b (List.mem_cons_of_mem _ hb))
    cases hrec : sortByPartial cmp t with
    | none => rw [hrec] at hsome; exact absurd hsome (by simp)
    | some t' =>
      have ht' : ∀ z ∈ t', z ∈ t := hmem t' hrec
      have hins : (insertPartial cmp x t').isSome :=
        insertPartial_isSome (fun y hy =>
          h x (List.mem_cons_self _ _) y (List.mem_cons_of_mem _ (ht' y hy)))
      constructor
      · simpa [sortByPartial, hrec] using hins
      · intro l' hl' z hz
        simp only [sortByPartial, hrec] at hl'
        rcases insertPartial_mem hl' z hz with rfl | hz'
        · exact List.mem_cons_self _ _
        · exact List.mem_cons_of_mem _ (ht' z hz')

/-- Claim C10: the final sorts compare through
`partial_cmp(..).unwrap()`; when no compared score is NaN the comparator
is total and the sort cannot panic (both for the `final_score` sorts of
`rerank_crates`/`rank_results` and the `rank` sort of
`rank_by_keyword_only`), and the precondition is necessary: on a list
containing a NaN `final_score` the sort panics (`none` in the model). -/
theorem final_sort_total_iff_no_nan :
    (∀ l : List RecommendCrateF, (∀ c ∈ l, c.final_score ≠ F32.nan) →
      (sortByPartial cmpByFinalScoreDesc l).isSome) ∧
    (∀ l : List RecommendCrateF, (∀ c ∈ l, c.rank ≠ F32.nan) →
      (sortByPartial cmpByRankDesc l).isSome) ∧
    sortByPartial cmpByFinalScoreDesc
      [⟨"nan-crate", F32.num 0, F32.nan⟩, ⟨"ok-crate", F32.num 0, F32.num 1⟩] = none := by
  refine ⟨fun l h => ?_, fun l h => ?_, by decide⟩
  · exact (sortByPartial_sound (fun a ha b hb =>
      partialCmpF32_isSome (h b hb) (h a ha))).1
  · exact (sortByPartial_sound (fun a ha b hb =>
      partialCmpF32_isSome (h b hb) (h a ha))).1

/-- Witness for claim C10 at a concrete NaN-free list. -/
theorem final_sort_total_iff_no_nan_witness :
    (sortByPartial cmpByFinalScoreDesc
      [⟨"a", F32.num 0, F32.num 2⟩, ⟨"b", F32.num 0, F32.num 1⟩]).isSome ∧
    (sortByPartial cmpByRankDesc [⟨"c", F32.num 3, F32.num 0⟩]).isSome :=
  ⟨final_sort_total_iff_no_nan.1 _ (by decide),
   final_sort_total_iff_no_nan.2.1 _ (by decide)⟩

/-! ## Bounds for the similarity scorer -/

lemma dotL_self_nonneg (v : List ℝ) : 0 ≤ dotL v v := by
  induction v with
  | nil => simp [dotL]
  | cons x t ih =>
    have : dotL (x :: t) (x :: t) = x * x + dotL t t := by simp [dotL]
    rw [this]
    nlinarith [mul_self_nonneg x]

/-- Cauchy–Schwarz for the loop's running sums, proved by induction on the
two vectors. -/
lemma dotL_sq_le (v1 v2 : List ℝ) : (dotL v1 v2) ^ 2 ≤ dotL v1 v1 * dotL v2 v2 := by
  induction v1 generalizing v2 with
  | nil => simp [dotL]
  | cons x t1 ih =>
    cases v2 with
    | nil => simp [dotL]
    | cons y t2 =>
      have hd : dotL (x :: t1) (y :: t2) = x * y + dotL t1 t2 := by simp [dotL]
      have hp : dotL (x :: t1) (x :: t1) = x * x + dotL t1 t1 := by simp [dotL]
      have hq : dotL (y :: t2) (y :: t2) = y * y + dotL t2 t2 := by simp [dotL]
      rw [hd, hp, hq]
      set d := dotL t1 t2 with hdd
      set p := dotL t1 t1 with hpp
      set q := dotL t2 t2 with hqq
      have hcs : d ^ 2 ≤ p * q := ih t2
      have hp0 : 0 ≤ p := dotL_self_nonneg t1
      have hq0 : 0 ≤ q := dotL_self_nonneg t2
      rcases eq_or_lt_of_le hq0 with hq1 | hq1
      · have hd2 : d ^ 2 = 0 := le_antisymm (by nlinarith) (sq_nonneg d)
        have hd0 : d = 0 := pow_eq_zero_iff two_ne_zero |>.mp hd2
        rw [hd0, ← hq1]
        nlinarith [mul_nonneg hp0 (mul_self_nonneg y)]
      · have key : q * ((x * x + p) * (y * y + q) - (x * y + d) ^ 2) =
            (x * q - y * d) ^ 2 + (y ^ 2 + q) * (p * q - d ^ 2) := by ring
        nlinarith [sq_nonneg (x * q - y * d),
          mul_nonneg (by positivity : (0:ℝ) ≤ y ^ 2 + q) (by linarith : (0:ℝ) ≤ p * q - d ^ 2)]

/-- Claim C8: `cosine_similarity` is exactly 0 on length mismatch, on an
empty vector, and whenever either accumulated norm is non-positive; and its
value always lies in `[-1, 1]` (in particular for any two non-zero
equal-length vectors). The function is total — no input errors or panics. -/
theorem cosine_similarity_zero_cases_and_bounds :
    (∀ v1 v2 : List ℝ, v1.length ≠ v2.length → cosine_similarity v1 v2 = 0) ∧
    (∀ v2 : List ℝ, cosine_similarity [] v2 = 0) ∧
    (∀ v1 v2 : List ℝ, dotL v1 v1 ≤ 0 ∨ dotL v2 v2 ≤ 0 → cosine_similarity v1 v2 = 0) ∧
    (∀ v1 v2 : List ℝ, -1 ≤ cosine_similarity v1 v2 ∧ cosine_similarity v1 v2 ≤ 1) := by
  refine ⟨fun v1 v2 h => ?_, fun v2 => ?_, fun v1 v2 h => ?_, fun v1 v2 => ?_⟩
  · simp [cosine_similarity, h]
  · simp [cosine_similarity]
  · unfold cosine_similarity
    split
    · rfl
    · simp only []
      rw [if_pos h]
  · unfold cosine_similarity
    split
    · norm_num
    · dsimp only
      split
      · norm_num
      · rename_i hmain hnorm
        obtain ⟨h1, h2⟩ := not_or.mp hnorm
        have hn1 : 0 < dotL v1 v1 := lt_of_not_le h1
        have hn2 : 0 < dotL v2 v2 := lt_of_not_le h2
        have hcs := dotL_sq_le v1 v2
        have hs : Real.sqrt (dotL v1 v1) * Real.sqrt (dotL v2 v2) =
            Real.sqrt (dotL v1 v1 * dotL v2 v2) :=
          (Real.sqrt_mul hn1.le _).symm
        have hspos : 0 < Real.sqrt (dotL v1 v1 * dotL v2 v2) :=
          Real.sqrt_pos.mpr (mul_pos hn1 hn2)
        have habs : |dotL v1 v2| ≤ Real.sqrt (dotL v1 v1 * dotL v2 v2) := by
          rw [Real.le_sqrt (abs_nonneg _) (mul_pos hn1 hn2).le, sq_abs]
          exact hcs
        rw [hs]
        constructor
        · rw [neg_le, ← neg_div]
          rw [div_le_one hspos]
          calc -dotL v1 v2 ≤ |dotL v1 v2| := neg_le_abs _
            _ ≤ _ := habs
        · rw [div_le_one hspos]
          exact (le_abs_self _).trans habs

/-- Witness for claim C8 at concrete vectors. -/
theorem cosine_similarity_zero_cases_and_bounds_witness :
    cosine_similarity [1, 2] [3] = 0 ∧
    cosine_similarity [0] [5] = 0 ∧
    (-1 ≤ cosine_similarity [1] [1] ∧ cosine_similarity [1] [1] ≤ 1) :=
  ⟨cosine_similarity_zero_cases_and_bounds.1 _ _ (by norm_num),
   cosine_similarity_zero_cases_and_bounds.2.2.1 _ _ (Or.inl (by norm_num [dotL])),
   cosine_similarity_zero_cases_and_bounds.2.2.2 _ _⟩

/-! ## The embedding write-back misattributes vectors under partial batch
failure -/

set_option maxRecDepth 10000 in
/-- Claim C3 is violated by the code (code bug): with 101 candidates all
lacking stored vectors, the first remote chunk failing and the second
succeeding, the only returned vector — produced from candidate `c100`'s
text `"c100"` (the identity embedding oracle makes this visible) — is
written back and merged under candidate `c0`'s id, although `c0`'s
embedding-input text is `"c0"`. The enumeration index of the surviving
vectors is interpreted against the full needing-list
(`rerank.rs:117-119`), which is only correct when no prior chunk failed. -/
theorem fetch_or_create_embeddings_misattributes_on_chunk_failure :
    fetch_or_create_embeddings true (fun _ => none) (fun _ => true) true
        (fun s => s) chunkBugFails chunkBugCrates "c0" = some "c100" ∧
    (chunkBugCrates.filter (fun c => c.id == "c0")).map embedText = ["c0"] := by
  constructor
  · decide
  · decide
